import Mathlib

/-!
# Verification of the flashcard_arena repository

Shallow embedding of the three source files of the repository:

* `src/backend/services/cards.py` — sentence segmentation, mask-word
  selection and the basic cloze generator (`generate_cards`);
* `src/backend/app.py` — the `/cards/generate` orchestrator
  (`cards_generate`) with its AI-or-basic fallback policy;
* `src/frontend/app.py` — the answer matcher (`_normalize`,
  `is_correct`) and the quiz session state machine (submit / skip /
  deck loading).

Python strings are modelled as `List Char`.  Python string methods
(`lower`, `strip`) and the regex character class for whitespace are
modelled for the ASCII fragment (the repository only manipulates ASCII
text for the behaviours under verification).  The float comparison
`ratio >= 0.87` in `is_correct` is modelled as the exact rational
comparison `200 * matches >= 87 * (len u + len g)`; for the string
lengths reachable here the two comparisons agree.
-/

namespace FlashcardArena

set_option maxRecDepth 65536

/-- ASCII whitespace: the characters matched by Python's regex
whitespace class and stripped by `str.strip` on ASCII input. -/
def isSpace (c : Char) : Bool :=
  c = ' ' || c = '\t' || c = '\n' || c = '\x0b' || c = '\x0c' || c = '\r'

/-- `a <= c <= z` (ASCII lower-case letter). -/
def isLowerAlpha (c : Char) : Bool :=
  'a' ≤ c && c ≤ 'z'

/-- `A <= c <= Z` (ASCII upper-case letter). -/
def isUpperAlpha (c : Char) : Bool :=
  'A' ≤ c && c ≤ 'Z'

/-- `0 <= c <= 9` (ASCII digit). -/
def isDigit (c : Char) : Bool :=
  '0' ≤ c && c ≤ '9'

/-- ASCII letter, the class `[A-Za-z]` of the `_WORD` regex. -/
def isLetter (c : Char) : Bool :=
  isUpperAlpha c || isLowerAlpha c

/-- The ASCII case-mapping table of Python's `str.lower`. -/
def lowerTable : List (Char × Char) :=
  [('A', 'a'), ('B', 'b'), ('C', 'c'), ('D', 'd'), ('E', 'e'), ('F', 'f'),
   ('G', 'g'), ('H', 'h'), ('I', 'i'), ('J', 'j'), ('K', 'k'), ('L', 'l'),
   ('M', 'm'), ('N', 'n'), ('O', 'o'), ('P', 'p'), ('Q', 'q'), ('R', 'r'),
   ('S', 's'), ('T', 't'), ('U', 'u'), ('V', 'v'), ('W', 'w'), ('X', 'x'),
   ('Y', 'y'), ('Z', 'z')]

/-- The ASCII case mapping performed by Python's `str.lower`: map each
upper-case letter to its lower-case form, leave everything else
unchanged. -/
def pyLowerChar (c : Char) : Char :=
  (lowerTable.lookup c).getD c

/-- Python `s.lower()` on ASCII text. -/
def pyLower (l : List Char) : List Char :=
  l.map pyLowerChar

/-- Python `s.strip()`: remove leading and trailing whitespace. -/
def pyStrip (l : List Char) : List Char :=
  ((l.dropWhile isSpace).reverse.dropWhile isSpace).reverse

/-- Python `re.sub` replacing every maximal run of whitespace with a
single space character, as in both `_clean` (cards.py) and `_normalize`
(frontend).  Each maximal whitespace run in the input contributes
exactly one space character to the output. -/
def pyCollapse : List Char → List Char
  | [] => []
  | [c] => if isSpace c then [' '] else [c]
  | c :: d :: rest =>
    if isSpace c && isSpace d then pyCollapse (d :: rest)
    else (if isSpace c then ' ' else c) :: pyCollapse (d :: rest)

/-- The character replacement of `re.sub` with the pattern that keeps
`a`-`z`, `0`-`9` and whitespace and turns every other character into a
space (the first substitution inside `_normalize`). -/
def pySubKeep (c : Char) : Char :=
  if isLowerAlpha c || isDigit c || isSpace c then c else ' '

/-- `re.sub` of the character class complement `[a-z0-9]` + whitespace
with a single space, applied character-wise. -/
def pySubNonAlnum (l : List Char) : List Char :=
  l.map pySubKeep

/-- frontend `_normalize`: lower-case, strip, replace every character
outside `[a-z0-9]` + whitespace with a space, collapse whitespace runs.
Note there is no final strip, so leading/trailing spaces introduced by
the substitution survive. -/
def pyNormalize (l : List Char) : List Char :=
  pyCollapse (pySubNonAlnum (pyStrip (pyLower l)))

/-! ## difflib.SequenceMatcher

Model of `SequenceMatcher(None, a, b).ratio()` from the CPython
standard library, specialised to `isjunk = None` (as used by
`is_correct`).  With `isjunk = None` the junk set is empty, so the two
junk-extension loops of `find_longest_match` never run; the `autojunk`
heuristic (characters occurring in more than `len(b) // 100 + 1`
positions of a `b` of length at least 200 are excluded from the inner
matching loop) is modelled by the `smPopular` set. -/

/-- The `autojunk` popular set of `set_seq2`: empty below length 200,
otherwise the characters whose occurrence count in `b` exceeds
`len(b) // 100 + 1`. -/
def smPopular (b : List Char) : List Char :=
  if b.length < 200 then []
  else b.dedup.filter fun c => decide (b.length / 100 + 1 < b.count c)

/-- Guard of the inner loop of `find_longest_match`: position `i` of
`a` and position `j` of `b` are inside the window, the characters
agree, and `b.[j]` is not popular (popular positions are absent from
`b2j`). -/
def smMatchOK (a b : List Char) (pop : List Char)
    (alo ahi blo bhi i j : Nat) : Bool :=
  decide (alo ≤ i) && decide (i < ahi) && decide (blo ≤ j) && decide (j < bhi) &&
    (match a[i]?, b[j]? with
     | some x, some y => x == y && !(pop.contains y)
     | _, _ => false)

/-- Length of the matching run ending at `(i, j)` as accumulated by the
`j2len` dictionary of `find_longest_match`. -/
def smRun (a b : List Char) (pop : List Char)
    (alo ahi blo bhi : Nat) : Nat → Nat → Nat
  | 0, j => if smMatchOK a b pop alo ahi blo bhi 0 j then 1 else 0
  | i + 1, 0 => if smMatchOK a b pop alo ahi blo bhi (i + 1) 0 then 1 else 0
  | i + 1, j + 1 =>
    if smMatchOK a b pop alo ahi blo bhi (i + 1) (j + 1) then
      smRun a b pop alo ahi blo bhi i j + 1
    else 0

/-- The main double loop of `find_longest_match`: scan `i` ascending,
`j` ascending, keep the first block that strictly improves the best
size; the stored block starts at `(i + 1 - k, j + 1 - k)`. -/
def smScan (a b : List Char) (pop : List Char)
    (alo ahi blo bhi : Nat) : Nat × Nat × Nat :=
  (List.range' alo (ahi - alo)).foldl
    (fun best i =>
      (List.range' blo (bhi - blo)).foldl
        (fun best j =>
          let k := smRun a b pop alo ahi blo bhi i j
          if best.2.2 < k then (i + 1 - k, j + 1 - k, k) else best)
        best)
    (alo, blo, 0)

/-- First extension loop of `find_longest_match` (with an empty junk
set): extend the block to the left over equal characters.  The fuel is
an upper bound on the number of iterations; the loop decrements `i`
toward `alo`, so fuel `i` is always sufficient. -/
def smExtendL (a b : List Char) (alo blo : Nat) :
    Nat → Nat → Nat → Nat → Nat × Nat × Nat
  | 0, i, j, k => (i, j, k)
  | fuel + 1, i, j, k =>
    if decide (alo < i) && decide (blo < j) &&
        (match a[i - 1]?, b[j - 1]? with
         | some x, some y => x == y
         | _, _ => false) then
      smExtendL a b alo blo fuel (i - 1) (j - 1) (k + 1)
    else (i, j, k)

/-- Second extension loop of `find_longest_match` (with an empty junk
set): extend the block to the right over equal characters.  The loop
increments `i + k` toward `ahi`, so fuel `ahi` is always sufficient. -/
def smExtendR (a b : List Char) (ahi bhi i j : Nat) : Nat → Nat → Nat
  | 0, k => k
  | fuel + 1, k =>
    if decide (i + k < ahi) && decide (j + k < bhi) &&
        (match a[i + k]?, b[j + k]? with
         | some x, some y => x == y
         | _, _ => false) then
      smExtendR a b ahi bhi i j fuel (k + 1)
    else k

/-- `find_longest_match` on the window `a[alo:ahi]`, `b[blo:bhi]`:
the scan followed by the two extension loops (the junk-extension loops
are no-ops because the junk set is empty). -/
def smFindLongest (a b : List Char) (pop : List Char)
    (alo ahi blo bhi : Nat) : Nat × Nat × Nat :=
  let s := smScan a b pop alo ahi blo bhi
  let t := smExtendL a b alo blo s.1 s.1 s.2.1 s.2.2
  (t.1, t.2.1, smExtendR a b ahi bhi t.1 t.2.1 ahi t.2.2)

/-- Total size of the matching blocks of `get_matching_blocks`:
recursively take the longest match and recurse on the window to its
left and to its right.  The fuel bounds the recursion depth; every
level strictly shrinks the window, so `len a + len b + 1` levels always
suffice. -/
def smTotal (a b : List Char) (pop : List Char) :
    Nat → Nat → Nat → Nat → Nat → Nat
  | 0, _, _, _, _ => 0
  | fuel + 1, alo, ahi, blo, bhi =>
    let t := smFindLongest a b pop alo ahi blo bhi
    if t.2.2 = 0 then 0
    else
      t.2.2 + smTotal a b pop fuel alo t.1 blo t.2.1 +
        smTotal a b pop fuel (t.1 + t.2.2) ahi (t.2.1 + t.2.2) bhi

/-- The `matches` quantity of `SequenceMatcher.ratio`: the sum of the
sizes of all matching blocks. -/
def smMatches (a b : List Char) : Nat :=
  smTotal a b (smPopular b) (a.length + b.length + 1) 0 a.length 0 b.length

/-- `SequenceMatcher(None, a, b).ratio() >= 0.87`, stated as the exact
rational comparison `2 * matches / (len a + len b) >= 87 / 100`. -/
def smRatioGE87 (a b : List Char) : Bool :=
  decide (87 * (a.length + b.length) ≤ 200 * smMatches a b)

/-- frontend `is_correct`: normalize both strings; empty normalized
user or gold gives `false`; exact normalized equality gives `true`;
otherwise accept when the normalized gold has length at least 5 and the
similarity ratio is at least 0.87. -/
def isCorrect (user gold : List Char) : Bool :=
  let u := pyNormalize user
  let g := pyNormalize gold
  if u = [] ∨ g = [] then false
  else if u = g then true
  else decide (5 ≤ g.length) && smRatioGE87 u g

/-! ### Specification-side answer matcher (for claim C2)

The claim describes the normalization as: lower-case, strip, replace
every character outside the literal class `[a-z0-9 ]` (space, not the
whitespace class) with a space, collapse whitespace.  These definitions
follow the claim's wording; the refinement theorem proves them equal to
the source-side definitions above. -/

/-- Claim-side normalization: the replaced class is every character
outside `[a-z0-9 ]` (literal space), per the claim's wording. -/
def specNormalize (l : List Char) : List Char :=
  pyCollapse ((pyStrip (pyLower l)).map
    fun c => if isLowerAlpha c || isDigit c || c == ' ' then c else ' ')

/-- Claim-side `is_correct`, structured exactly as the claim states
it. -/
def specIsCorrect (user gold : List Char) : Bool :=
  let u := specNormalize user
  let g := specNormalize gold
  if u = [] ∨ g = [] then false
  else if u = g then true
  else decide (5 ≤ g.length) && smRatioGE87 u g

/-! ## backend/services/cards.py — the basic cloze generator -/

/-- `_clean`: collapse whitespace runs to single spaces, then strip. -/
def pyClean (l : List Char) : List Char :=
  pyStrip (pyCollapse l)

/-- Does `c` end a sentence, i.e. is it in the class `[.!?]` of the
`_SENT_SPLIT` regex. -/
def isSentEnd (c : Char) : Bool :=
  c = '.' || c = '!' || c = '?'

/-- Split on the regex `(?<=[.!?])` followed by whitespace, applied to
*cleaned* text: after `_clean` every whitespace run is a single space,
so the separator is exactly one space preceded by `.`, `!` or `?`.
`acc` holds the current fragment in reverse. -/
def sentSplit (acc : List Char) : List Char → List (List Char)
  | [] => [acc.reverse]
  | [c] => [(c :: acc).reverse]
  | c :: d :: rest =>
    if isSentEnd c && d = ' ' then (c :: acc).reverse :: sentSplit [] rest
    else sentSplit (c :: acc) (d :: rest)

/-- `_split_sentences`: clean, return `[]` on empty cleaned text,
otherwise split into fragments and keep each stripped fragment whose
length lies in `[20, 240]`. -/
def splitSentences (text : List Char) : List (List Char) :=
  let t := pyClean text
  if t = [] then []
  else (sentSplit [] t).filterMap fun part =>
    let s := pyStrip part
    if 20 ≤ s.length ∧ s.length ≤ 240 then some s else none

/-- Character class `[A-Za-z'-]` of the `_WORD` regex body (the
apostrophe is written via its code point 39). -/
def wordChar (c : Char) : Bool :=
  isLetter c || c = Char.ofNat 39 || c = '-'

/-- `_WORD.finditer`: the non-overlapping matches of
`[A-Za-z][A-Za-z'-]{3,}` with their start offsets.  A match starts at
the first letter of a maximal run of word characters and extends
greedily to the end of the run; it is kept only when it has length at
least 4.  The fuel is an upper bound on the number of scanning steps:
every step consumes at least one character, so fuel `cs.length` is
always sufficient. -/
def findWordsFuel : Nat → List Char → Nat → List (List Char × Nat)
  | 0, _, _ => []
  | _ + 1, [], _ => []
  | fuel + 1, c :: cs, idx =>
    if wordChar c then
      let run := List.takeWhile wordChar (c :: cs)
      let after := List.dropWhile wordChar (c :: cs)
      let pre := List.takeWhile (fun x => !(isLetter x)) run
      let w := List.dropWhile (fun x => !(isLetter x)) run
      if 4 ≤ w.length then
        (w, idx + pre.length) :: findWordsFuel fuel after (idx + run.length)
      else findWordsFuel fuel after (idx + run.length)
    else findWordsFuel fuel cs (idx + 1)

/-- The candidate list of `_pick_mask_word` for a sentence. -/
def maskCandidates (s : List Char) : List (List Char × Nat) :=
  findWordsFuel s.length s 0

/-- The fixed stop-word set of `_pick_mask_word`. -/
def stopWords : List (List Char) :=
  ["this", "that", "with", "from", "which", "their", "there", "these",
   "those", "where", "after", "before", "because", "while"].map String.toList

/-- The `long_good` subset: candidates of length at least 6 whose
lower-casing is not a stop word. -/
def maskPreferred (s : List Char) : List (List Char × Nat) :=
  (maskCandidates s).filter fun c =>
    decide (6 ≤ c.1.length ∧ ¬ (c.1.map pyLowerChar) ∈ stopWords)

/-- The order realised by Python's `sort(key=lambda t: (-len(t[0]), t[1]))`:
longer words first, ties broken by smaller start offset. -/
def maskOrder (x y : List Char × Nat) : Prop :=
  y.1.length < x.1.length ∨ (x.1.length = y.1.length ∧ x.2 ≤ y.2)

instance : DecidableRel maskOrder := fun x y => by
  unfold maskOrder; infer_instance

/-- `_pick_mask_word`: `none` models the `("", -1)` sentinel returned
when there are no candidates; otherwise sort the preferred subset (or,
when it is empty, the full candidate pool) by the longest-then-earliest
key and take the first element. -/
def pickMaskWord (s : List Char) : Option (List Char × Nat) :=
  if maskCandidates s = [] then none
  else if maskPreferred s = [] then
    (List.insertionSort maskOrder (maskCandidates s)).head?
  else (List.insertionSort maskOrder (maskPreferred s)).head?

/-- A flashcard: `q` is the cloze question, `a` the hidden word
(`Card` of backend/app.py, the dicts produced by `generate_cards`). -/
structure CardM where
  q : List Char
  a : List Char
deriving DecidableEq, Repr

/-- The fixed blank marker. -/
def blank : List Char := "_____".toList

/-- The loop body of `generate_cards`: walk the sentences in order,
skip a sentence when no mask word is found, otherwise append the card
built by replacing the word's span with the blank marker, and stop as
soon as the accumulated count reaches `n` (the check happens after the
append). -/
def genCardsAux (n : Int) : List (List Char) → List CardM → List CardM
  | [], acc => acc
  | s :: rest, acc =>
    match pickMaskWord s with
    | none => genCardsAux n rest acc
    | some (w, p) =>
      let q := pyStrip (s.take p ++ blank ++ s.drop (p + w.length))
      let acc' := acc ++ [⟨q, w⟩]
      if n ≤ (acc'.length : Int) then acc' else genCardsAux n rest acc'

/-- `generate_cards(text, n)`. -/
def generateCards (text : List Char) (n : Int) : List CardM :=
  genCardsAux n (splitSentences text) []

/-- The constraint pydantic places on `GenerateRequest.n`
(`Field(10, ge=1, le=50)`). -/
def generateRequestValidN (n : Int) : Prop :=
  1 ≤ n ∧ n ≤ 50

/-! ## backend/app.py — the `/cards/generate` orchestrator -/

/-- The body of a `GenerateResponse`.  `mode` and `fallback_error`
carry the literal strings the endpoint produces. -/
structure GenResponse where
  cards : List CardM
  mode : List Char
  fallback_error : Option (List Char)
deriving DecidableEq, Repr

/-- An `HTTPException` raised by the endpoint. -/
structure HTTPError where
  status : Nat
  detail : List Char
deriving DecidableEq, Repr

/-- `cards_generate`.  The two external conditions are parameters:
`hasKey` models `os.getenv` finding `OPENAI_API_KEY`, and `ai` models
the outcome of the `generate_ai_cards` call (the remote capability is
an external collaborator): `Except.error e` is an exception whose
string form is `e`, `Except.ok cs` is a successful card list. -/
def cardsGenerate (hasKey : Bool) (ai : Except (List Char) (List CardM))
    (text : List Char) (n : Int) : Except HTTPError GenResponse :=
  let t := pyStrip text
  if t = [] then .error ⟨400, "`text` is required.".toList⟩
  else if hasKey then
    match ai with
    | .ok cs => .ok ⟨cs, "ai".toList, none⟩
    | .error e =>
      let basic := generateCards t n
      if basic = [] then
        .error ⟨500, "AI failed and fallback generator also failed: ".toList ++ e⟩
      else .ok ⟨basic, "basic".toList, some e⟩
  else
    let basic := generateCards t n
    if basic = [] then
      .error ⟨422, "Could not generate cards from the provided text.".toList⟩
    else .ok ⟨basic, "basic".toList, some "No OPENAI_API_KEY set".toList⟩

/-! ## frontend/app.py — quiz session state machine -/

/-- One entry of `quiz_history`: the dicts appended by the submit and
skip handlers.  `result` carries the literal label string; `user` is
present for answer submissions and absent for skips. -/
structure HistEntry where
  i : Nat
  result : List Char
  user : Option (List Char)
deriving DecidableEq, Repr

/-- The quiz-related keys of `st.session_state`. -/
structure QuizState where
  cards : List CardM
  quiz_idx : Nat
  quiz_reveal : Bool
  quiz_correct : Nat
  quiz_seen : Nat
  quiz_history : List HistEntry
  quiz_answer : List Char
  quiz_feedback : List Char
  quiz_last_idx : Option Nat
  quiz_clear : Bool
deriving DecidableEq, Repr

/-- The defaults installed by `ensure_state`. -/
def initialSession : QuizState :=
  ⟨[], 0, false, 0, 0, [], [], [], none, false⟩

/-- `reset_quiz`. -/
def resetQuiz (s : QuizState) : QuizState :=
  { s with quiz_idx := 0, quiz_reveal := false, quiz_correct := 0,
           quiz_seen := 0, quiz_history := [], quiz_answer := [],
           quiz_feedback := [], quiz_last_idx := none, quiz_clear := false }

/-- `load_deck_into_session`: replace the deck (`cards or []` is the
identity on lists) and reset the quiz state.  No validation of the
loaded cards is performed. -/
def loadDeckIntoSession (cards : List CardM) (s : QuizState) : QuizState :=
  resetQuiz { s with cards := cards }

/-- The submit handler of `render_quiz_mode` (the `if submitted:`
block).  Returns the new state together with the validation-warning
flag shown when the raw answer trims to empty. -/
def submit (raw : List Char) (s : QuizState) : QuizState × Bool :=
  if pyStrip raw = [] then (s, true)
  else
    let idx := s.quiz_idx
    let card := s.cards.getD idx ⟨[], []⟩
    if isCorrect raw card.a then
      ({ s with quiz_feedback := "correct".toList,
                quiz_correct := s.quiz_correct + 1,
                quiz_seen := s.quiz_seen + 1,
                quiz_history := s.quiz_history ++ [⟨idx, "correct".toList, some raw⟩],
                quiz_idx := (idx + 1) % s.cards.length,
                quiz_clear := true,
                quiz_reveal := false }, false)
    else
      ({ s with quiz_feedback := "incorrect".toList,
                quiz_history := s.quiz_history ++ [⟨idx, "attempt".toList, some raw⟩] },
       false)

/-- The `skip` button handler. -/
def skip (s : QuizState) : QuizState :=
  { s with quiz_seen := s.quiz_seen + 1,
           quiz_history := s.quiz_history ++ [⟨s.quiz_idx, "skip".toList, none⟩],
           quiz_idx := (s.quiz_idx + 1) % s.cards.length,
           quiz_reveal := false,
           quiz_feedback := [],
           quiz_clear := true }

/-- `skip` iterated `k` times. -/
def skipN : Nat → QuizState → QuizState
  | 0, s => s
  | k + 1, s => skipN k (skip s)

/-! ## Concrete scenario inputs used by witnesses and counterexamples -/

/-- The scenario sentence of the specification. -/
def mito : List Char :=
  "The mitochondria is the powerhouse of the cell.".toList

/-- The cloze question `generate_cards` builds from `mito`. -/
def mitoQ : List Char :=
  "The _____ is the powerhouse of the cell.".toList

/-- The deck of the Paris scenario. -/
def parisDeck : List CardM :=
  [⟨"Paris is the _____ of France.".toList, "capital".toList⟩]

/-- The session obtained by loading the Paris deck. -/
def parisSession : QuizState :=
  loadDeckIntoSession parisDeck initialSession

/-- A card violating the Card invariant (empty question and answer). -/
def emptyCard : CardM := ⟨[], []⟩

/-- A two-card deck used to exercise the skip transition. -/
def twoDeck : List CardM :=
  [⟨"q1".toList, "a1".toList⟩, ⟨"q2".toList, "a2".toList⟩]

/-! ## Auxiliary predicates used by the theorems -/

/-- Characters are interchangeable under whitespace collapsing when
they lie in the same whitespace class and agree outside it. -/
def spaceAgree (a b : Char) : Prop :=
  isSpace a = isSpace b ∧ (isSpace a = false → a = b)

/-- A string matches the `_WORD` candidate pattern
`[A-Za-z][A-Za-z'-]{3,}`: length at least 4, a letter first, word
characters after. -/
def wordOK (w : List Char) : Prop :=
  4 ≤ w.length ∧
    ∃ c rest, w = c :: rest ∧ isLetter c = true ∧ rest.all wordChar = true

instance : IsTotal (List Char × Nat) maskOrder :=
  ⟨by
    intro a b
    unfold maskOrder
    rcases Nat.lt_trichotomy a.1.length b.1.length with h | h | h
    · exact Or.inr (Or.inl h)
    · rcases le_total a.2 b.2 with hp | hp
      · exact Or.inl (Or.inr ⟨h, hp⟩)
      · exact Or.inr (Or.inr ⟨h.symm, hp⟩)
    · exact Or.inl (Or.inl h)⟩

instance : IsTrans (List Char × Nat) maskOrder :=
  ⟨by
    intro a b c hab hbc
    unfold maskOrder at hab hbc ⊢
    rcases hab with h1 | ⟨h1, h1'⟩ <;> rcases hbc with h2 | ⟨h2, h2'⟩
    · exact Or.inl (by omega)
    · exact Or.inl (by omega)
    · exact Or.inl (by omega)
    · exact Or.inr ⟨h1.trans h2, h1'.trans h2'⟩⟩

/-! # Theorems -/

/-! ## Helper lemmas -/

/-- Collapsing whitespace never empties a non-empty string. -/
theorem pyCollapse_ne_nil {l : List Char} (h : l ≠ []) : pyCollapse l ≠ [] := by
  induction l with
  | nil => exact absurd rfl h
  | cons c cs ih =>
    cases cs with
    | nil =>
      simp only [pyCollapse]
      split <;> simp
    | cons d ds =>
      simp only [pyCollapse]
      split
      · exact ih (by simp)
      · simp

/-- A successful association-list lookup yields a member pair. -/
theorem mem_of_lookup {l : List (Char × Char)} {a b : Char}
    (h : l.lookup a = some b) : (a, b) ∈ l := by
  induction l with
  | nil => simp [List.lookup] at h
  | cons p ps ih =>
    obtain ⟨k, v⟩ := p
    rw [List.lookup] at h
    by_cases hpa : (a == k) = true
    · simp only [hpa, if_true] at h
      obtain rfl := Option.some_inj.1 h
      have hk : a = k := by simpa using hpa
      subst hk
      exact List.mem_cons_self _ _
    · simp only [Bool.not_eq_true] at hpa
      rw [hpa] at h
      exact List.mem_cons_of_mem _ (ih h)

/-- The ASCII case mapping preserves the whitespace class. -/
theorem isSpace_pyLowerChar (c : Char) : isSpace (pyLowerChar c) = isSpace c := by
  unfold pyLowerChar
  cases hl : lowerTable.lookup c with
  | none => rfl
  | some d =>
    have hmem := mem_of_lookup hl
    have hkeys : ∀ p ∈ lowerTable, isSpace p.1 = false ∧ isSpace p.2 = false := by
      decide
    have hp := hkeys _ hmem
    simp [hp.1, hp.2]

/-- A non-whitespace element survives `dropWhile isSpace`. -/
theorem exists_nonspace_dropWhile {l : List Char}
    (h : ∃ c ∈ l, isSpace c = false) :
    ∃ c ∈ l.dropWhile isSpace, isSpace c = false := by
  induction l with
  | nil => simp at h
  | cons x xs ih =>
    obtain ⟨c, hc, hcs⟩ := h
    by_cases hx : isSpace x
    · rw [List.dropWhile_cons, if_pos hx]
      rcases List.mem_cons.1 hc with rfl | hmem
      · exact absurd hx (by simp [hcs])
      · exact ih ⟨c, hmem, hcs⟩
    · rw [List.dropWhile_cons, if_neg hx]
      exact ⟨c, hc, hcs⟩

/-- Stripping keeps at least one character when some character is not
whitespace. -/
theorem pyStrip_ne_nil {l : List Char} (h : ∃ c ∈ l, isSpace c = false) :
    pyStrip l ≠ [] := by
  unfold pyStrip
  have h1 := exists_nonspace_dropWhile h
  have h2 : ∃ c ∈ (l.dropWhile isSpace).reverse, isSpace c = false := by
    obtain ⟨c, hc, hcs⟩ := h1
    exact ⟨c, List.mem_reverse.2 hc, hcs⟩
  have h3 := exists_nonspace_dropWhile h2
  obtain ⟨c, hc, _⟩ := h3
  intro hnil
  rw [List.reverse_eq_nil_iff] at hnil
  simp [hnil] at hc

/-- Normalization keeps at least one character when some character of
the input is not whitespace. -/
theorem pyNormalize_ne_nil {x : List Char}
    (h : ∃ c ∈ x, isSpace c = false) : pyNormalize x ≠ [] := by
  unfold pyNormalize
  apply pyCollapse_ne_nil
  have hlow : ∃ c ∈ pyLower x, isSpace c = false := by
    obtain ⟨c, hc, hcs⟩ := h
    exact ⟨pyLowerChar c, List.mem_map_of_mem _ hc,
      (isSpace_pyLowerChar c).trans hcs⟩
  have hstrip := pyStrip_ne_nil hlow
  simp only [pySubNonAlnum, ne_eq, List.map_eq_nil_iff]
  exact hstrip

/-- `skip` composed `k` times: the index advances by `k` modulo the
deck length, `seen` grows by `k`, `correct` and the deck are
untouched. -/
theorem skipN_spec (k : Nat) (s : QuizState)
    (hidx : s.quiz_idx % s.cards.length = s.quiz_idx) :
    (skipN k s).quiz_idx = (s.quiz_idx + k) % s.cards.length ∧
    (skipN k s).quiz_seen = s.quiz_seen + k ∧
    (skipN k s).quiz_correct = s.quiz_correct ∧
    (skipN k s).cards = s.cards := by
  induction k generalizing s with
  | zero =>
    refine ⟨?_, rfl, rfl, rfl⟩
    show s.quiz_idx = (s.quiz_idx + 0) % s.cards.length
    rw [Nat.add_zero, hidx]
  | succ k ih =>
    have hidx' : (skip s).quiz_idx % (skip s).cards.length = (skip s).quiz_idx := by
      show (s.quiz_idx + 1) % s.cards.length % s.cards.length =
        (s.quiz_idx + 1) % s.cards.length
      exact Nat.mod_mod_of_dvd _ dvd_rfl
    have h := ih (skip s) hidx'
    simp only [skipN]
    refine ⟨?_, ?_, ?_, ?_⟩
    · rw [h.1]
      show ((s.quiz_idx + 1) % s.cards.length + k) % s.cards.length =
        (s.quiz_idx + (k + 1)) % s.cards.length
      rw [Nat.mod_add_mod]
      congr 1
      omega
    · rw [h.2.1]
      show s.quiz_seen + 1 + k = s.quiz_seen + (k + 1)
      omega
    · exact h.2.2.1
    · exact h.2.2.2

/-! ## C7 — skipping through a whole deck wraps exactly once -/

/-- C7: from a freshly loaded non-empty deck `D`, performing `skip`
`len D` times returns the position to 0 with `seen = len D` and
`correct = 0`; each individual skip increments `seen` only, appends a
`skip` history entry at the current position, and advances the position
modulo the deck length. -/
theorem c7_skip_wraps (D : List CardM) (h : D ≠ []) :
    (skipN D.length (loadDeckIntoSession D initialSession)).quiz_idx = 0 ∧
    (skipN D.length (loadDeckIntoSession D initialSession)).quiz_seen = D.length ∧
    (skipN D.length (loadDeckIntoSession D initialSession)).quiz_correct = 0 ∧
    ∀ s : QuizState,
      (skip s).quiz_seen = s.quiz_seen + 1 ∧
      (skip s).quiz_correct = s.quiz_correct ∧
      (skip s).quiz_history = s.quiz_history ++ [⟨s.quiz_idx, "skip".toList, none⟩] ∧
      (skip s).quiz_idx = (s.quiz_idx + 1) % s.cards.length := by
  have hs := skipN_spec D.length (loadDeckIntoSession D initialSession)
    (show (0 : Nat) % D.length = 0 from Nat.zero_mod _)
  have hcards : (loadDeckIntoSession D initialSession).cards = D := rfl
  refine ⟨?_, ?_, ?_, fun s => ⟨rfl, rfl, rfl, rfl⟩⟩
  · rw [hs.1, hcards]
    show (0 + D.length) % D.length = 0
    simp
  · rw [hs.2.1]
    show 0 + D.length = D.length
    omega
  · exact hs.2.2.1

/-- Witness for C7 on a concrete two-card deck. -/
theorem c7_witness :
    (skipN twoDeck.length (loadDeckIntoSession twoDeck initialSession)).quiz_idx = 0 ∧
    (skipN twoDeck.length (loadDeckIntoSession twoDeck initialSession)).quiz_seen = twoDeck.length ∧
    (skipN twoDeck.length (loadDeckIntoSession twoDeck initialSession)).quiz_correct = 0 := by
  have h := c7_skip_wraps twoDeck (by decide)
  exact ⟨h.1, h.2.1, h.2.2.1⟩

/-! ## C8 — deck loading does not re-validate the Card invariant -/

/-- C8 (code bug): loading a deck that contains a card whose question
and answer are both empty after trimming keeps the invalid card; the
session simply adopts the loaded list, with no dropping and no load
error. -/
theorem c8_load_keeps_invalid_cards :
    pyStrip emptyCard.q = [] ∧ pyStrip emptyCard.a = [] ∧
    (loadDeckIntoSession [emptyCard] initialSession).cards = [emptyCard] :=
  ⟨rfl, rfl, rfl⟩

/-! ## C9 — reflexivity and empty-user behaviour of is_correct -/

/-- C9 counterexample: the single-space string is non-empty, yet
`is_correct` rejects it against itself, because `_normalize` strips it
to the empty string. -/
theorem c9_counterexample :
    " ".toList ≠ ([] : List Char) ∧
    isCorrect " ".toList " ".toList = false :=
  ⟨by decide, by decide⟩

/-- C9 as amended: `is_correct(x, x)` is true for every `x` containing
at least one non-whitespace character (whitespace-only strings
normalize to empty and are rejected), and `is_correct("", g)` is false
for every `g`. -/
theorem c9_reflexive :
    (∀ x : List Char, (∃ c ∈ x, isSpace c = false) → isCorrect x x = true) ∧
    ∀ g : List Char, isCorrect [] g = false := by
  constructor
  · intro x hx
    have hne : pyNormalize x ≠ [] := pyNormalize_ne_nil hx
    simp only [isCorrect]
    rw [if_neg (by simp [hne])]
    simp
  · intro g
    have hnil : pyNormalize ([] : List Char) = [] := rfl
    simp [isCorrect, hnil]

/-- Witness for C9 at a concrete non-blank string. -/
theorem c9_witness :
    isCorrect "a".toList "a".toList = true ∧
    isCorrect [] "x".toList = false :=
  ⟨c9_reflexive.1 ("a".toList) ⟨'a', by decide, by decide⟩,
   c9_reflexive.2 ("x".toList)⟩

/-! ## C6 — the submit transition -/

/-- C6 counterexample: an incorrect submit appends a history entry
whose outcome label is the literal string `attempt`, not
`incorrect-attempt` as the claim states. -/
theorem c6_counterexample :
    (submit "wrong".toList parisSession).1.quiz_history =
      [⟨0, "attempt".toList, some ("wrong".toList)⟩] ∧
    "attempt".toList ≠ "incorrect-attempt".toList := by
  constructor
  · decide
  · decide

/-- C6 as amended: on a session with a non-empty deck, a submit whose
raw answer trims to empty is a no-op apart from the validation signal;
a correct submit increments `correct` and `seen`, appends a
`correct`-labelled entry carrying the raw answer, sets the feedback to
`correct`, advances the position modulo the deck length, clears the
reveal flag and schedules an input clear; an incorrect submit appends
an `attempt`-labelled entry carrying the raw answer, sets the feedback
to `incorrect`, and leaves position, `seen` and `correct` unchanged. -/
theorem c6_submit_transition (s : QuizState) (raw : List Char)
    (hne : s.cards ≠ []) :
    (pyStrip raw = [] → submit raw s = (s, true)) ∧
    (pyStrip raw ≠ [] →
      isCorrect raw (s.cards.getD s.quiz_idx ⟨[], []⟩).a = true →
      submit raw s =
        ({ s with quiz_feedback := "correct".toList,
                  quiz_correct := s.quiz_correct + 1,
                  quiz_seen := s.quiz_seen + 1,
                  quiz_history := s.quiz_history ++
                    [⟨s.quiz_idx, "correct".toList, some raw⟩],
                  quiz_idx := (s.quiz_idx + 1) % s.cards.length,
                  quiz_clear := true,
                  quiz_reveal := false }, false)) ∧
    (pyStrip raw ≠ [] →
      isCorrect raw (s.cards.getD s.quiz_idx ⟨[], []⟩).a = false →
      submit raw s =
        ({ s with quiz_feedback := "incorrect".toList,
                  quiz_history := s.quiz_history ++
                    [⟨s.quiz_idx, "attempt".toList, some raw⟩] }, false)) := by
  refine ⟨?_, ?_, ?_⟩
  · intro hb
    simp [submit, hb]
  · intro hb hc
    simp only [List.getD, List.get?_eq_getElem?] at hc
    simp [submit, hb, hc]
  · intro hb hc
    simp only [List.getD, List.get?_eq_getElem?] at hc
    simp [submit, hb, hc]

/-- Witness for C6: the Paris scenario, submitting `Capital` against
gold answer `capital`. -/
theorem c6_witness :
    submit "Capital".toList parisSession =
      ({ parisSession with
           quiz_feedback := "correct".toList,
           quiz_correct := parisSession.quiz_correct + 1,
           quiz_seen := parisSession.quiz_seen + 1,
           quiz_history := parisSession.quiz_history ++
             [⟨parisSession.quiz_idx, "correct".toList, some ("Capital".toList)⟩],
           quiz_idx := (parisSession.quiz_idx + 1) % parisSession.cards.length,
           quiz_clear := true,
           quiz_reveal := false }, false) :=
  (c6_submit_transition parisSession ("Capital".toList) (by decide)).2.1
    (by decide) (by decide)

/-! ## C1 — the generation orchestrator and its fallback policy -/

/-- C1 counterexample: with the AI capability unavailable the endpoint
reports `fallback_error = "No OPENAI_API_KEY set"`, not the string
`"AI capability unavailable"` stated by the claim. -/
theorem c1_counterexample :
    cardsGenerate false (.ok []) mito 5 =
      .ok ⟨[⟨mitoQ, "mitochondria".toList⟩], "basic".toList,
           some ("No OPENAI_API_KEY set".toList)⟩ ∧
    some ("No OPENAI_API_KEY set".toList) ≠
      some ("AI capability unavailable".toList) := by
  constructor
  · rfl
  · decide

/-- C1 as amended: for every request whose text is non-empty after
trimming — if no API key is configured the basic generator is used and
the response reports `mode = "basic"` with
`fallback_error = "No OPENAI_API_KEY set"`; if the AI attempt succeeds
the response reports `mode = "ai"` with no fallback reason; if the AI
attempt fails the basic generator is used and the response reports
`mode = "basic"` with the AI error text as the fallback reason; and the
endpoint fails terminally exactly when the AI path failed or was
unavailable and the basic generator produced zero cards. -/
theorem c1_orchestrator_fallback (hasKey : Bool)
    (ai : Except (List Char) (List CardM)) (text : List Char) (n : Int)
    (h : pyStrip text ≠ []) :
    (hasKey = false → generateCards (pyStrip text) n ≠ [] →
      cardsGenerate hasKey ai text n =
        .ok ⟨generateCards (pyStrip text) n, "basic".toList,
             some ("No OPENAI_API_KEY set".toList)⟩) ∧
    (∀ cs, hasKey = true → ai = .ok cs →
      cardsGenerate hasKey ai text n = .ok ⟨cs, "ai".toList, none⟩) ∧
    (∀ e, hasKey = true → ai = .error e → generateCards (pyStrip text) n ≠ [] →
      cardsGenerate hasKey ai text n =
        .ok ⟨generateCards (pyStrip text) n, "basic".toList, some e⟩) ∧
    ((∃ err, cardsGenerate hasKey ai text n = .error err) ↔
      (hasKey = false ∨ ∃ e, ai = .error e) ∧
        generateCards (pyStrip text) n = []) := by
  refine ⟨?_, ?_, ?_, ?_⟩
  · intro hk hb
    subst hk
    simp [cardsGenerate, h, hb]
  · intro cs hk hai
    subst hk
    subst hai
    simp [cardsGenerate, h]
  · intro e hk hai hb
    subst hk
    subst hai
    simp [cardsGenerate, h, hb]
  · cases hasKey with
    | false =>
      by_cases hb : generateCards (pyStrip text) n = []
      · simp [cardsGenerate, h, hb]
      · simp [cardsGenerate, h, hb]
    | true =>
      cases ai with
      | ok cs => simp [cardsGenerate, h]
      | error e =>
        by_cases hb : generateCards (pyStrip text) n = []
        · simp [cardsGenerate, h, hb]
        · simp [cardsGenerate, h, hb]

/-- Witness for C1: concrete no-key request over the scenario
sentence. -/
theorem c1_witness :
    cardsGenerate false (.ok []) mito 5 =
      .ok ⟨generateCards (pyStrip mito) 5, "basic".toList,
           some ("No OPENAI_API_KEY set".toList)⟩ :=
  (c1_orchestrator_fallback false (.ok []) mito 5 (by decide)).1 rfl (by decide)

/-! ## C2 — the answer matcher refines the claim's description -/

/-- `pyCollapse` only depends on the whitespace profile of the string
and on its non-whitespace characters. -/
theorem pyCollapse_congr :
    ∀ l₁ l₂ : List Char, List.Forall₂ spaceAgree l₁ l₂ →
      pyCollapse l₁ = pyCollapse l₂ := by
  intro l₁
  induction l₁ with
  | nil =>
    intro l₂ h
    cases h
    rfl
  | cons c cs ih =>
    intro l₂ h
    cases h with
    | cons hR htail =>
      rename_i d ds
      cases cs with
      | nil =>
        cases htail
        simp only [pyCollapse]
        by_cases hc : isSpace c = true
        · rw [if_pos hc, if_pos (hR.1 ▸ hc)]
        · rw [if_neg (by simp [hc]), if_neg (by simp [← hR.1, hc]),
            hR.2 (by simpa using hc)]
      | cons c₂ cs₂ =>
        cases htail with
        | cons hR₂ htail₂ =>
          rename_i d₂ ds₂
          simp only [pyCollapse]
          have hcond : (isSpace c && isSpace c₂) = (isSpace d && isSpace d₂) := by
            rw [hR.1, hR₂.1]
          by_cases hsp : (isSpace c && isSpace c₂) = true
          · rw [if_pos hsp, if_pos (hcond ▸ hsp)]
            exact ih _ (List.Forall₂.cons hR₂ htail₂)
          · rw [if_neg hsp,
              if_neg (show ¬(isSpace d && isSpace d₂) = true from by
                rw [← hcond]; exact hsp)]
            have hhead : (if isSpace c then ' ' else c) =
                (if isSpace d then ' ' else d) := by
              by_cases hc : isSpace c = true
              · rw [if_pos hc, if_pos (hR.1 ▸ hc)]
              · rw [if_neg (by simp [hc]), if_neg (by simp [← hR.1, hc]),
                  hR.2 (by simpa using hc)]
            rw [hhead]
            exact congrArg _ (ih _ (List.Forall₂.cons hR₂ htail₂))

/-- The claim-side substitution (replace everything outside the literal
class `[a-z0-9 ]`) and the source-side substitution (replace everything
outside `[a-z0-9]` + whitespace) agree up to whitespace collapsing. -/
theorem subKeep_spaceAgree (c : Char) :
    spaceAgree (if isLowerAlpha c || isDigit c || c == ' ' then c else ' ')
      (pySubKeep c) := by
  unfold pySubKeep
  by_cases h1 : (isLowerAlpha c || isDigit c) = true
  · rw [if_pos (by simp [h1]), if_pos (by simp [h1])]
    exact ⟨rfl, fun _ => rfl⟩
  · by_cases h2 : (c == ' ') = true
    · have hc : c = ' ' := by simpa using h2
      subst hc
      exact ⟨rfl, fun _ => rfl⟩
    · by_cases h3 : isSpace c = true
      · rw [if_neg (by simp_all), if_pos (by simp [h3])]
        refine ⟨?_, ?_⟩
        · show isSpace ' ' = isSpace c
          rw [h3]
          decide
        · intro habs
          exact absurd habs (by decide)
      · rw [if_neg (by simp_all), if_neg (by simp_all)]
        exact ⟨rfl, fun _ => rfl⟩

/-- Pointwise `spaceAgree` lifts to mapped lists. -/
theorem forall₂_map_of_pointwise {f g : Char → Char}
    (hfg : ∀ c, spaceAgree (f c) (g c)) :
    ∀ l : List Char, List.Forall₂ spaceAgree (l.map f) (l.map g) := by
  intro l
  induction l with
  | nil => exact List.Forall₂.nil
  | cons c cs ih => exact List.Forall₂.cons (hfg c) ih

/-- The claim-side normalization equals the source normalization. -/
theorem specNormalize_eq (l : List Char) :
    specNormalize l = pyNormalize l := by
  unfold specNormalize pyNormalize pySubNonAlnum
  exact pyCollapse_congr _ _
    (forall₂_map_of_pointwise subKeep_spaceAgree (pyStrip (pyLower l)))

/-- C2: `is_correct` behaves exactly as the claim describes — it
normalizes both strings (lower-case, strip, replace every character
outside `[a-z0-9 ]` with a space, collapse whitespace), rejects when
either normalized string is empty, accepts on exact normalized
equality, and otherwise accepts exactly when the normalized gold has
length at least 5 and the similarity ratio `2*matches/(len u + len g)`
is at least 0.87; in particular gold answers shorter than 5 normalized
characters are accepted only on an exact normalized match. -/
theorem c2_answer_matcher (user gold : List Char) :
    isCorrect user gold = specIsCorrect user gold ∧
    ((pyNormalize gold).length < 5 →
      (isCorrect user gold = true ↔
        pyNormalize user = pyNormalize gold ∧ pyNormalize gold ≠ [])) := by
  constructor
  · simp only [isCorrect, specIsCorrect, specNormalize_eq]
  · intro hlen
    simp only [isCorrect]
    by_cases h1 : pyNormalize user = [] ∨ pyNormalize gold = []
    · rw [if_pos h1]
      constructor
      · intro habs
        exact absurd habs (by simp)
      · rintro ⟨heq, hgne⟩
        rcases h1 with hu | hg
        · exact absurd (heq ▸ hu) hgne
        · exact absurd hg hgne
    · rw [if_neg h1]
      push_neg at h1
      by_cases h2 : pyNormalize user = pyNormalize gold
      · rw [if_pos h2]
        simp [h2, h1.2]
      · rw [if_neg h2]
        have h5 : decide (5 ≤ (pyNormalize gold).length) = false := by
          simp
          omega
        rw [h5]
        simp [h2]

/-- Witness for C2: the short-gold clause at the concrete pair
`("cat", "bat")`. -/
theorem c2_witness :
    (pyNormalize ("bat".toList)).length < 5 ∧
    (isCorrect "cat".toList "bat".toList = true ↔
      pyNormalize ("cat".toList) = pyNormalize ("bat".toList) ∧
        pyNormalize ("bat".toList) ≠ []) :=
  ⟨by decide, (c2_answer_matcher ("cat".toList) ("bat".toList)).2 (by decide)⟩

/-! ## Helper lemmas for the cloze generator claims -/

/-- The head surviving `dropWhile` fails the predicate. -/
theorem dropWhile_head_not {q : Char → Bool} :
    ∀ {l : List Char} {a : Char} {t : List Char},
      l.dropWhile q = a :: t → q a = false := by
  intro l
  induction l with
  | nil => intro a t h; simp at h
  | cons x xs ih =>
    intro a t h
    rw [List.dropWhile_cons] at h
    by_cases hx : q x = true
    · rw [if_pos hx] at h
      exact ih h
    · rw [if_neg hx] at h
      obtain ⟨rfl, -⟩ := List.cons.injEq .. ▸ h
      · simpa using hx

/-- Stripping is the identity on a string whose first and last
characters are not whitespace. -/
theorem pyStrip_eq_self {l : List Char}
    (h1 : ∀ c, l.head? = some c → isSpace c = false)
    (h2 : ∀ c, l.getLast? = some c → isSpace c = false) :
    pyStrip l = l := by
  cases l with
  | nil => rfl
  | cons a as =>
    unfold pyStrip
    have hd : (a :: as).dropWhile isSpace = a :: as := by
      rw [List.dropWhile_cons, if_neg (by simp [h1 a rfl])]
    rw [hd]
    cases hv : (a :: as).reverse with
    | nil => simp at hv
    | cons b bs =>
      have hb : (a :: as).getLast? = some b := by
        rw [← List.head?_reverse, hv]
        rfl
      have hdb : (b :: bs).dropWhile isSpace = b :: bs := by
        rw [List.dropWhile_cons, if_neg (by simp [h2 b hb])]
      rw [hdb, ← hv, List.reverse_reverse]

/-- The first character of a stripped string is not whitespace. -/
theorem pyStrip_head_not_space {t : List Char} {c : Char}
    (h : (pyStrip t).head? = some c) : isSpace c = false := by
  unfold pyStrip at h
  rw [List.head?_reverse] at h
  set v := (t.dropWhile isSpace).reverse with hv
  have hsu : v.dropWhile isSpace <:+ v := List.dropWhile_suffix _
  obtain ⟨pre, hpre⟩ := hsu
  have hne : v.dropWhile isSpace ≠ [] := by
    intro habs
    rw [habs] at h
    simp at h
  have hlast : v.getLast? = some c := by
    rw [← hpre, List.getLast?_append_of_ne_nil pre hne, h]
  rw [hv, List.getLast?_reverse] at hlast
  cases hu : t.dropWhile isSpace with
  | nil => rw [hu] at hlast; simp at hlast
  | cons x xs =>
    rw [hu] at hlast
    simp only [List.head?_cons, Option.some_inj] at hlast
    subst hlast
    exact dropWhile_head_not hu

/-- The last character of a stripped string is not whitespace. -/
theorem pyStrip_last_not_space {t : List Char} {c : Char}
    (h : (pyStrip t).getLast? = some c) : isSpace c = false := by
  unfold pyStrip at h
  rw [List.getLast?_reverse] at h
  cases hu : (t.dropWhile isSpace).reverse.dropWhile isSpace with
  | nil => rw [hu] at h; simp at h
  | cons x xs =>
    rw [hu] at h
    simp only [List.head?_cons, Option.some_inj] at h
    subst h
    exact dropWhile_head_not hu

/-- Every retained sentence is a stripped fragment of length in
`[20, 240]`. -/
theorem splitSentences_mem {text s : List Char}
    (h : s ∈ splitSentences text) :
    20 ≤ s.length ∧ s.length ≤ 240 ∧ ∃ t, s = pyStrip t := by
  unfold splitSentences at h
  by_cases hc : pyClean text = []
  · rw [if_pos hc] at h
    simp at h
  · rw [if_neg hc] at h
    obtain ⟨part, -, hf⟩ := List.mem_filterMap.1 h
    by_cases hp : 20 ≤ (pyStrip part).length ∧ (pyStrip part).length ≤ 240
    · rw [if_pos hp] at hf
      obtain rfl := Option.some_inj.1 hf
      exact ⟨hp.1, hp.2, part, rfl⟩
    · rw [if_neg hp] at hf
      simp at hf

/-- A non-empty verbatim occurrence at offset `p` bounds `p` and
decomposes the string around the occurrence. -/
theorem occ_decomp {s w : List Char} {p : Nat} (hw : w ≠ [])
    (hocc : (s.drop p).take w.length = w) :
    p < s.length ∧ p + w.length ≤ s.length ∧
      s = s.take p ++ w ++ s.drop (p + w.length) := by
  have hlen := congrArg List.length hocc
  simp only [List.length_take, List.length_drop] at hlen
  have hwpos : 0 < w.length := List.length_pos.2 hw
  have hble : w.length ≤ s.length - p := by omega
  have hple : p + w.length ≤ s.length := by
    rcases Nat.le_total p s.length with hp | hp
    · omega
    · exfalso
      have : s.length - p = 0 := by omega
      omega
  refine ⟨by omega, hple, ?_⟩
  conv_lhs => rw [← List.take_append_drop p s]
  rw [List.append_assoc]
  congr 1
  conv_lhs => rw [← List.take_append_drop w.length (s.drop p)]
  rw [hocc, List.drop_drop]

/-- Soundness of the word scanner: every reported candidate `(w, p)`
occurs verbatim in the scanned string at offset `p - idx` and matches
the `_WORD` pattern. -/
theorem findWords_sound :
    ∀ (fuel : Nat) (cs : List Char) (idx : Nat) {w : List Char} {p : Nat},
      (w, p) ∈ findWordsFuel fuel cs idx →
      idx ≤ p ∧ (cs.drop (p - idx)).take w.length = w ∧ wordOK w := by
  intro fuel
  induction fuel with
  | zero =>
    intro cs idx w p h
    simp [findWordsFuel] at h
  | succ fuel ih =>
    intro cs idx w p h
    cases cs with
    | nil => simp [findWordsFuel] at h
    | cons c cs' =>
      simp only [findWordsFuel] at h
      by_cases hwc : wordChar c = true
      · rw [if_pos hwc] at h
        set run := List.takeWhile wordChar (c :: cs') with hrun
        set after := List.dropWhile wordChar (c :: cs') with hafter
        set pre := List.takeWhile (fun x => !(isLetter x)) run with hpre
        set w₀ := List.dropWhile (fun x => !(isLetter x)) run with hw₀
        have h1 : run ++ after = c :: cs' :=
          List.takeWhile_append_dropWhile _ _
        have h2 : pre ++ w₀ = run := List.takeWhile_append_dropWhile _ _
        have hrecCase :
            (w, p) ∈ findWordsFuel fuel after (idx + run.length) →
            idx ≤ p ∧ ((c :: cs').drop (p - idx)).take w.length = w ∧
              wordOK w := by
          intro hrec
          obtain ⟨hle, hocc, hok⟩ := ih after (idx + run.length) hrec
          refine ⟨by omega, ?_, hok⟩
          rw [show p - idx = run.length + (p - (idx + run.length)) by omega]
          rw [← h1, ← List.drop_drop, List.drop_left]
          exact hocc
        by_cases hlen : 4 ≤ w₀.length
        · rw [if_pos hlen] at h
          rcases List.mem_cons.1 h with heq | hrec
          · have hw : w = w₀ := congrArg Prod.fst heq
            have hp : p = idx + pre.length := congrArg Prod.snd heq
            subst hw
            subst hp
            refine ⟨by omega, ?_, ?_⟩
            · rw [show idx + pre.length - idx = pre.length by omega]
              rw [← h1, ← h2, List.append_assoc, List.drop_left,
                List.take_left]
            · refine ⟨hlen, ?_⟩
              have hmemrun : ∀ x ∈ w₀, wordChar x = true := by
                intro x hx
                have hxrun : x ∈ run :=
                  (List.dropWhile_suffix _).sublist.mem hx
                rw [hrun] at hxrun
                exact List.mem_takeWhile_imp hxrun
              cases hw₀c : w₀ with
              | nil =>
                rw [hw₀c] at hlen
                simp at hlen
              | cons c₀ rest =>
                refine ⟨c₀, rest, rfl, ?_, ?_⟩
                · have hnot : (fun x => !(isLetter x)) c₀ = false :=
                    dropWhile_head_not (hw₀.symm.trans hw₀c)
                  simpa using hnot
                · rw [List.all_eq_true]
                  intro x hx
                  exact hmemrun x (hw₀c ▸ List.mem_cons_of_mem _ hx)
          · exact hrecCase hrec
        · rw [if_neg hlen] at h
          exact hrecCase h
      · rw [if_neg hwc] at h
        obtain ⟨hle, hocc, hok⟩ := ih cs' (idx + 1) h
        refine ⟨by omega, ?_, hok⟩
        rw [show p - idx = (p - (idx + 1)) + 1 by omega,
          List.drop_succ_cons]
        exact hocc

/-- The word chosen by `_pick_mask_word` is one of the candidates. -/
theorem pickMaskWord_mem {s w : List Char} {p : Nat}
    (h : pickMaskWord s = some (w, p)) : (w, p) ∈ maskCandidates s := by
  unfold pickMaskWord at h
  by_cases hc : maskCandidates s = []
  · rw [if_pos hc] at h
    simp at h
  · rw [if_neg hc] at h
    by_cases hg : maskPreferred s = []
    · rw [if_pos hg] at h
      cases hl : List.insertionSort maskOrder (maskCandidates s) with
      | nil =>
        rw [hl] at h
        simp at h
      | cons x xs =>
        rw [hl] at h
        simp only [List.head?_cons, Option.some_inj] at h
        have hx : x ∈ List.insertionSort maskOrder (maskCandidates s) := by
          rw [hl]
          exact List.mem_cons_self _ _
        exact h ▸ (List.mem_insertionSort maskOrder).1 hx
    · rw [if_neg hg] at h
      cases hl : List.insertionSort maskOrder (maskPreferred s) with
      | nil =>
        rw [hl] at h
        simp at h
      | cons x xs =>
        rw [hl] at h
        simp only [List.head?_cons, Option.some_inj] at h
        have hx : x ∈ List.insertionSort maskOrder (maskPreferred s) := by
          rw [hl]
          exact List.mem_cons_self _ _
        have hxg := (List.mem_insertionSort maskOrder).1 hx
        exact h ▸ (List.mem_filter.1 hxg).1

/-- The head of the insertion sort by the longest-then-earliest order
is a member below every element of the input. -/
theorem insertionSort_head_min {l : List (List Char × Nat)} (hl : l ≠ []) :
    ∃ c, (List.insertionSort maskOrder l).head? = some c ∧ c ∈ l ∧
      ∀ d ∈ l, maskOrder c d := by
  have hperm := List.perm_insertionSort maskOrder l
  have hsorted := List.sorted_insertionSort maskOrder l
  cases hL : List.insertionSort maskOrder l with
  | nil =>
    rw [hL] at hperm
    exact absurd hperm.symm.eq_nil hl
  | cons a t =>
    refine ⟨a, rfl, ?_, ?_⟩
    · have ha : a ∈ List.insertionSort maskOrder l := by
        rw [hL]
        exact List.mem_cons_self _ _
      exact (List.mem_insertionSort maskOrder).1 ha
    · intro d hd
      have hdL : d ∈ a :: t := by
        rw [← hL]
        exact (List.mem_insertionSort maskOrder).2 hd
      rcases List.mem_cons.1 hdL with rfl | hdt
      · exact (total_of maskOrder d d).elim id id
      · rw [hL] at hsorted
        exact List.rel_of_sorted_cons hsorted d hdt

/-- Every card produced by the generator loop comes either from the
accumulator or from one of the remaining sentences via the mask-word
selector. -/
theorem genAux_mem {n : Int} :
    ∀ (sents : List (List Char)) (acc : List CardM) {c : CardM},
      c ∈ genCardsAux n sents acc →
      c ∈ acc ∨ ∃ s ∈ sents, ∃ w p, pickMaskWord s = some (w, p) ∧
        c = ⟨pyStrip (s.take p ++ blank ++ s.drop (p + w.length)), w⟩ := by
  intro sents
  induction sents with
  | nil =>
    intro acc c h
    exact Or.inl h
  | cons s rest ih =>
    intro acc c h
    simp only [genCardsAux] at h
    cases hpick : pickMaskWord s with
    | none =>
      rw [hpick] at h
      rcases ih acc h with hacc | ⟨s', hs', w, p, hp, hc⟩
      · exact Or.inl hacc
      · exact Or.inr ⟨s', List.mem_cons_of_mem _ hs', w, p, hp, hc⟩
    | some wp =>
      obtain ⟨w, p⟩ := wp
      rw [hpick] at h
      dsimp only at h
      by_cases hstop :
          n ≤ ((acc ++ [(⟨pyStrip (s.take p ++ blank ++ s.drop (p + w.length)),
            w⟩ : CardM)]).length : Int)
      · rw [if_pos hstop] at h
        rcases List.mem_append.1 h with hacc | hcard
        · exact Or.inl hacc
        · refine Or.inr ⟨s, List.mem_cons_self _ _, w, p, hpick, ?_⟩
          simpa using hcard
      · rw [if_neg hstop] at h
        rcases ih _ h with hacc | ⟨s', hs', w', p', hp', hc⟩
        · rcases List.mem_append.1 hacc with hacc' | hcard
          · exact Or.inl hacc'
          · refine Or.inr ⟨s, List.mem_cons_self _ _, w, p, hpick, ?_⟩
            simpa using hcard
        · exact Or.inr ⟨s', List.mem_cons_of_mem _ hs', w', p', hp', hc⟩

/-- The generator loop never grows the accumulator beyond `n` when it
starts strictly below `n`. -/
theorem genAux_length_le {n : Int} :
    ∀ (sents : List (List Char)) (acc : List CardM),
      (acc.length : Int) < n →
      ((genCardsAux n sents acc).length : Int) ≤ n := by
  intro sents
  induction sents with
  | nil =>
    intro acc h
    exact le_of_lt h
  | cons s rest ih =>
    intro acc h
    simp only [genCardsAux]
    cases hpick : pickMaskWord s with
    | none => exact ih acc h
    | some wp =>
      obtain ⟨w, p⟩ := wp
      dsimp only
      by_cases hstop :
          n ≤ ((acc ++ [(⟨pyStrip (s.take p ++ blank ++ s.drop (p + w.length)),
            w⟩ : CardM)]).length : Int)
      · rw [if_pos hstop]
        simp only [List.length_append, List.length_cons, List.length_nil]
        push_cast
        omega
      · rw [if_neg hstop]
        apply ih
        push_cast at hstop ⊢
        omega

/-- With `n ≤ 0` the generator loop stops right after its first
appended card. -/
theorem genAux_one {n : Int} (hn : n ≤ 0) :
    ∀ sents : List (List Char),
      (∃ s ∈ sents, pickMaskWord s ≠ none) →
      (genCardsAux n sents []).length = 1 := by
  intro sents
  induction sents with
  | nil =>
    intro h
    simp at h
  | cons s rest ih =>
    intro h
    simp only [genCardsAux]
    cases hpick : pickMaskWord s with
    | none =>
      apply ih
      obtain ⟨s₀, hs₀, hne⟩ := h
      rcases List.mem_cons.1 hs₀ with rfl | hmem
      · exact absurd hpick hne
      · exact ⟨s₀, hmem, hne⟩
    | some wp =>
      obtain ⟨w, p⟩ := wp
      dsimp only
      rw [if_pos (by simp; omega)]
      simp

/-! ## C3 — the blank exactly replaces the chosen word's span -/

/-- C3 counterexample: for the scenario sentence the chosen word is
`mitochondria` (length 12) while the blank marker has length 5, so the
claim's reconstruction `question[:p] + w + question[p+len(w):]` does
not rebuild the original sentence. -/
theorem c3_counterexample :
    generateCards mito 5 = [⟨mitoQ, "mitochondria".toList⟩] ∧
    pickMaskWord mito = some ("mitochondria".toList, 4) ∧
    mitoQ.take 4 ++ "mitochondria".toList ++
        mitoQ.drop (4 + ("mitochondria".toList).length) ≠ mito := by
  refine ⟨?_, ?_, ?_⟩
  · decide
  · decide
  · decide

/-- C3 as amended: every generated card's question is the retained
sentence with the chosen word's span replaced by the blank marker, and
the original sentence is rebuilt by `question[:p] + w +
question[p + len(blank):]` (the skipped span has the blank marker's
length, 5, not `len(w)`); the answer is the chosen word with its
original casing. -/
theorem c3_blank_replaces_span (text : List Char) (n : Int) (c : CardM)
    (hc : c ∈ generateCards text n) :
    ∃ s ∈ splitSentences text, ∃ p : Nat,
      pickMaskWord s = some (c.a, p) ∧
      c.q = s.take p ++ blank ++ s.drop (p + c.a.length) ∧
      c.q.take p ++ c.a ++ c.q.drop (p + blank.length) = s := by
  unfold generateCards at hc
  rcases genAux_mem _ _ hc with habs | ⟨s, hs, w, p, hpick, hcq⟩
  · simp at habs
  · obtain ⟨h20, h240, t, hst⟩ := splitSentences_mem hs
    have hcand := pickMaskWord_mem hpick
    obtain ⟨-, hocc0, hok⟩ := findWords_sound s.length s 0 hcand
    rw [Nat.sub_zero] at hocc0
    have hwne : w ≠ [] := by
      obtain ⟨h4, -⟩ := hok
      intro habs
      rw [habs] at h4
      simp at h4
    obtain ⟨hplt, hple, hdecomp⟩ := occ_decomp hwne hocc0
    have hsne : s ≠ [] := by
      intro habs
      rw [habs] at h20
      simp at h20
    set q0 := s.take p ++ blank ++ s.drop (p + w.length) with hq0
    have hq0head : ∀ ch, q0.head? = some ch → isSpace ch = false := by
      intro ch hch
      by_cases hp0 : p = 0
      · have hb : q0.head? = some '_' := by
          rw [hq0, hp0]
          rfl
        rw [hb] at hch
        obtain rfl := Option.some_inj.1 hch
        decide
      · cases hs' : s with
        | nil => exact absurd hs' hsne
        | cons a as =>
          have hb : q0.head? = some a := by
            rw [hq0, hs', show p = (p - 1) + 1 by omega,
              List.take_succ_cons]
            rfl
          rw [hb] at hch
          rw [← Option.some_inj.1 hch]
          have hsh : (pyStrip t).head? = some a := by
            rw [← hst, hs']
            rfl
          exact pyStrip_head_not_space hsh
    have hq0last : ∀ ch, q0.getLast? = some ch → isSpace ch = false := by
      intro ch hch
      by_cases hd0 : s.drop (p + w.length) = []
      · have hb : q0.getLast? = some '_' := by
          rw [hq0, hd0, List.append_nil,
            List.getLast?_append_of_ne_nil (s.take p)
              (show blank ≠ [] by decide)]
          decide
        rw [hb] at hch
        obtain rfl := Option.some_inj.1 hch
        decide
      · have hb : q0.getLast? = s.getLast? := by
          rw [hq0, List.getLast?_append_of_ne_nil _ hd0]
          conv_rhs => rw [← List.take_append_drop (p + w.length) s]
          rw [List.getLast?_append_of_ne_nil _ hd0]
        rw [hb] at hch
        exact pyStrip_last_not_space (hst ▸ hch)
    have hstrip : pyStrip q0 = q0 := pyStrip_eq_self hq0head hq0last
    subst hcq
    refine ⟨s, hs, p, hpick, ?_, ?_⟩
    · show pyStrip q0 = s.take p ++ blank ++ s.drop (p + w.length)
      rw [hstrip]
    · show (pyStrip q0).take p ++ w ++ (pyStrip q0).drop (p + blank.length) = s
      rw [hstrip]
      have hminp : (s.take p).length = p := by
        simp [List.length_take]
        omega
      have htake : q0.take p = s.take p := by
        rw [hq0, List.append_assoc]
        exact List.take_left' hminp
      have hdrop : q0.drop (p + blank.length) = s.drop (p + w.length) := by
        rw [hq0]
        exact List.drop_left' (by
          simp only [List.length_append, hminp])
      rw [htake, hdrop]
      exact hdecomp.symm

/-- Witness for C3 at the concrete scenario card. -/
theorem c3_witness :
    ∃ s ∈ splitSentences mito, ∃ p : Nat,
      pickMaskWord s = some ((⟨mitoQ, "mitochondria".toList⟩ : CardM).a, p) ∧
      (⟨mitoQ, "mitochondria".toList⟩ : CardM).q =
        s.take p ++ blank ++
          s.drop (p + (⟨mitoQ, "mitochondria".toList⟩ : CardM).a.length) ∧
      (⟨mitoQ, "mitochondria".toList⟩ : CardM).q.take p ++
          (⟨mitoQ, "mitochondria".toList⟩ : CardM).a ++
          (⟨mitoQ, "mitochondria".toList⟩ : CardM).q.drop (p + blank.length) =
        s :=
  c3_blank_replaces_span mito 5 ⟨mitoQ, "mitochondria".toList⟩ (by decide)

/-! ## C4 — bounds and provenance of the basic generator -/

/-- C4 counterexample: with `n = 0` the generator still returns one
card for the scenario sentence, because the count check happens only
after a card is appended. -/
theorem c4_counterexample :
    (generateCards mito 0).length = 1 ∧
    ¬ ((generateCards mito 0).length : Int) ≤ (0 : Int) := by
  refine ⟨?_, ?_⟩
  · decide
  · decide

/-- C4 as amended: for `n ≥ 1` the basic generator returns at most `n`
cards, and (for every `n`) every returned card's answer occurs verbatim
in some retained sentence and matches the word-candidate pattern.
Sentences in which no mask word is found are skipped silently: the
generator is total and never fails on them. -/
theorem c4_basic_generator (text : List Char) (n : Int) :
    (1 ≤ n → ((generateCards text n).length : Int) ≤ n) ∧
    ∀ c ∈ generateCards text n, ∃ s ∈ splitSentences text, ∃ p : Nat,
      (s.drop p).take c.a.length = c.a ∧ wordOK c.a := by
  constructor
  · intro h1
    exact genAux_length_le _ _ (by simp; omega)
  · intro c hc
    unfold generateCards at hc
    rcases genAux_mem _ _ hc with habs | ⟨s, hs, w, p, hpick, hcq⟩
    · simp at habs
    · subst hcq
      have hcand := pickMaskWord_mem hpick
      obtain ⟨-, hocc0, hok⟩ := findWords_sound s.length s 0 hcand
      rw [Nat.sub_zero] at hocc0
      exact ⟨s, hs, p, hocc0, hok⟩

/-- Witness for C4 at the scenario text with `n = 5`. -/
theorem c4_witness :
    ((generateCards mito 5).length : Int) ≤ 5 ∧
    ∃ s ∈ splitSentences mito, ∃ p : Nat,
      (s.drop p).take (⟨mitoQ, "mitochondria".toList⟩ : CardM).a.length =
        (⟨mitoQ, "mitochondria".toList⟩ : CardM).a ∧
      wordOK (⟨mitoQ, "mitochondria".toList⟩ : CardM).a :=
  ⟨(c4_basic_generator mito 5).1 (by decide),
   (c4_basic_generator mito 5).2 ⟨mitoQ, "mitochondria".toList⟩ (by decide)⟩

/-! ## C5 — the mask-word selection policy -/

/-- C5: the selector returns the no-word sentinel exactly on an empty
candidate pool; every candidate occurs verbatim at its offset and
matches the word pattern; when the preferred subset (length at least 6,
not a stop word) is non-empty the selector returns a longest preferred
candidate with ties broken by earliest offset; otherwise it applies the
same rule to the whole pool. -/
theorem c5_mask_selector (s : List Char) :
    (maskCandidates s = [] → pickMaskWord s = none) ∧
    (∀ c ∈ maskCandidates s,
      wordOK c.1 ∧ (s.drop c.2).take c.1.length = c.1) ∧
    (maskPreferred s ≠ [] →
      ∃ c, pickMaskWord s = some c ∧ c ∈ maskPreferred s ∧
        ∀ d ∈ maskPreferred s, d.1.length ≤ c.1.length ∧
          (d.1.length = c.1.length → c.2 ≤ d.2)) ∧
    (maskPreferred s = [] → maskCandidates s ≠ [] →
      ∃ c, pickMaskWord s = some c ∧ c ∈ maskCandidates s ∧
        ∀ d ∈ maskCandidates s, d.1.length ≤ c.1.length ∧
          (d.1.length = c.1.length → c.2 ≤ d.2)) := by
  refine ⟨?_, ?_, ?_, ?_⟩
  · intro h
    unfold pickMaskWord
    rw [if_pos h]
  · intro c hc
    obtain ⟨w, p⟩ := c
    obtain ⟨-, hocc0, hok⟩ := findWords_sound s.length s 0 hc
    rw [Nat.sub_zero] at hocc0
    exact ⟨hok, hocc0⟩
  · intro hg
    have hc : maskCandidates s ≠ [] := by
      intro habs
      apply hg
      unfold maskPreferred
      rw [habs]
      rfl
    obtain ⟨c, hhead, hmem, hmin⟩ := insertionSort_head_min hg
    refine ⟨c, ?_, hmem, ?_⟩
    · unfold pickMaskWord
      rw [if_neg hc, if_neg hg]
      exact hhead
    · intro d hd
      rcases hmin d hd with h | ⟨h1, h2⟩
      · exact ⟨le_of_lt h, fun he => by omega⟩
      · exact ⟨le_of_eq h1.symm, fun _ => h2⟩
  · intro hg hc
    obtain ⟨c, hhead, hmem, hmin⟩ := insertionSort_head_min hc
    refine ⟨c, ?_, hmem, ?_⟩
    · unfold pickMaskWord
      rw [if_neg hc, if_pos hg]
      exact hhead
    · intro d hd
      rcases hmin d hd with h | ⟨h1, h2⟩
      · exact ⟨le_of_lt h, fun he => by omega⟩
      · exact ⟨le_of_eq h1.symm, fun _ => h2⟩

/-- Witness for C5 on the scenario sentence, whose preferred subset is
non-empty. -/
theorem c5_witness :
    ∃ c, pickMaskWord mito = some c ∧ c ∈ maskPreferred mito ∧
      ∀ d ∈ maskPreferred mito, d.1.length ≤ c.1.length ∧
        (d.1.length = c.1.length → c.2 ≤ d.2) :=
  (c5_mask_selector mito).2.2.1 (by decide)

/-! ## C10 — the post-append count check -/

/-- C10: because the count check happens only after appending, a call
with `n ≤ 0` still returns exactly one card whenever some retained
sentence yields a mask word; the at-most-`n` bound holds under the
precondition `n ≥ 1`, which the HTTP request model
(`generateRequestValidN`, pydantic `ge=1, le=50`) enforces but the
function itself does not. -/
theorem c10_post_append_check (text : List Char) (n : Int) :
    (n ≤ 0 → (∃ s ∈ splitSentences text, pickMaskWord s ≠ none) →
      (generateCards text n).length = 1) ∧
    ∀ m : Int, generateRequestValidN m →
      ((generateCards text m).length : Int) ≤ m := by
  constructor
  · intro hn hex
    exact genAux_one hn _ hex
  · intro m hm
    apply genAux_length_le
    simp
    exact lt_of_lt_of_le Int.zero_lt_one hm.1

/-- Witness for C10 at the scenario text, with `n = 0` and a valid
`n = 7`. -/
theorem c10_witness :
    (generateCards mito 0).length = 1 ∧
    ((generateCards mito 7).length : Int) ≤ 7 :=
  ⟨(c10_post_append_check mito 0).1 (by decide)
      ⟨mito, by decide, by decide⟩,
   (c10_post_append_check mito 7).2 7 ⟨by decide, by decide⟩⟩

end FlashcardArena
